import Mathlib

/-!
Shallow embedding of the strided N-dimensional Grid/View component of an
Advent-of-Code helper library (source files src/grid.rs and src/point.rs),
together with proofs of the specified properties of that component.

Modelling conventions.

A Point of N isize components is a List Int of length N; a usize value is a
Nat.  The isize/usize as-casts of the source are modelled bit-exactly as
two-complement reinterpretations mod 2 to the 64.  Intermediate isize ring
operations are computed in Int: two-complement add and mul agree with Int
arithmetic mod 2 to the 64, and the only observation of the intermediate sum
in data_offset is its cast to usize, so reducing once mod 2 to the 64 is
bit-exact for release-mode (wrapping) semantics; the final usize addition in
data_offset likewise wraps.  Fallible slice accesses (slice get and get_mut)
are modelled with Option / a length guard.  The Cow storage handle of the
source is modelled twice: GridView inlines the current contents of the
handle (sufficient for all single-handle observations), and CowGridView
keeps the borrowed/owned tag explicit, with the buffer of the owner passed
in separately as the store, for the copy-on-write independence property.
The owning Grid wrapper of the source is a newtype over GridView (all
operations Deref to the view); it is therefore not modelled separately, and
the constructors below return the underlying view with owned storage.
-/

/-- Width of the usize / isize machine integers of the source (64-bit). -/
def USIZE : Nat := 2 ^ 64

/-- Reinterpretation of an isize value as usize (an as-cast in the source):
two-complement, i.e. reduction mod 2 to the 64. -/
def usizeCast (x : Int) : Nat := (x % (USIZE : Int)).toNat

/-- Reinterpretation of a usize value as isize (an as-cast in the source):
two-complement reinterpretation of the low 64 bits. -/
def isizeCast (n : Nat) : Int :=
  if n % USIZE < 2 ^ 63 then ((n % USIZE : Nat) : Int)
  else ((n % USIZE : Nat) : Int) - (USIZE : Int)

/-- GridView of grid.rs: backing storage contents, per-dimension strides
(usize), view offset and logical size (Points of isize components).  The
dimension count N of the source is the common length of the three lists. -/
structure GridView (T : Type) where
  grid : List T
  stride : List Nat
  offset : List Int
  size : List Int

variable {T : Type}

/-- GridView::in_bounds: every component of p lies in the interval from 0
(inclusive) to the matching size component (exclusive). -/
def GridView.in_bounds (g : GridView T) (p : List Int) : Bool :=
  (p.zip g.size).all fun cs => decide (0 ≤ cs.1) && decide (cs.1 < cs.2)

/-- GridView::data_offset: translate p by the view offset, then linearise:
component 0 cast to usize, plus the sum over the remaining dimensions of
component times stride (stride cast to isize), the sum cast to usize; the
two usize values are added (wrapping). -/
def GridView.data_offset (g : GridView T) (p : List Int) : Nat :=
  let c := List.zipWith (· + ·) p g.offset
  (usizeCast c.headI +
      usizeCast ((((c.zip g.stride).drop 1).map fun t => t.1 * isizeCast t.2).sum)) % USIZE

/-- Mathematical (non-wrapping) value of the linear index computed by
GridView::data_offset: used to state invariants and specifications. -/
def GridView.offSpec (g : GridView T) (p : List Int) : Int :=
  let c := List.zipWith (· + ·) p g.offset
  c.headI + (((c.zip g.stride).drop 1).map fun t => t.1 * (t.2 : Int)).sum

/-- Helper for GridView::offset_to_point: walk the stride list; the
recursion processes the later (higher) dimensions first, matching the
reversed iteration of the source, producing the component for each stride
by division and passing the remainder down.  The second result is the
final leftover offset (discarded by the caller, as in the source). -/
def otpAux : List Nat → Nat → (List Int × Nat)
  | [], off => ([], off)
  | s :: rest, off =>
    let r := otpAux rest off
    (isizeCast (r.2 / s) :: r.1, r.2 % s)

/-- GridView::offset_to_point: decompose a linear storage offset into
per-dimension coordinates by repeated division and remainder against the
stride array, most significant (last) dimension first. -/
def GridView.offset_to_point (g : GridView T) (off : Nat) : List Int :=
  (otpAux g.stride off).1

/-- GridView::get: None when out of bounds, otherwise the checked slice
access at data_offset (None when the index is past the storage). -/
def GridView.get (g : GridView T) (p : List Int) : Option T :=
  if g.in_bounds p then g.grid.get? (g.data_offset p) else none

/-- GridView::set: false when out of bounds; otherwise write through the
(now owned, see cowSet for the ownership-explicit model) storage when the
index is within it, reporting success. -/
def GridView.set (g : GridView T) (p : List Int) (v : T) : Bool × GridView T :=
  if g.in_bounds p then
    let pos := g.data_offset p
    if pos < g.grid.length then (true, { g with grid := g.grid.set pos v })
    else (false, g)
  else (false, g)

/-- GridView::view (2D in the source): same storage contents and strides,
new logical offset and size window. -/
def GridView.view (g : GridView T) (offset size : List Int) : GridView T :=
  { g with offset := offset, size := size }

/-- Index of Point2 for GridView (the subscript operator): get followed by
unwrap.  The panic of unwrap on None is modelled as none; a some result is
the returned element. -/
def GridView.indexP2 (g : GridView T) (p : List Int) : Option T :=
  match g.get p with
  | some v => some v
  | none => none

/-- Helper for GridView::from_data: derive the per-dimension sizes from the
buffer length, walking the strides from the highest dimension down (the
recursion processes later strides first, matching the reversed iteration of
the source): each size is the remaining length divided by the stride (cast
to isize), the remainder being passed down.  Also returns the final
leftover length (discarded by the caller). -/
def sizeAux : List Nat → Nat → (List Int × Nat)
  | [], len => ([], len)
  | s :: rest, len =>
    let r := sizeAux rest len
    (isizeCast (r.2 / s) :: r.1, r.2 % s)

/-- Panic-aware size derivation: the division and remainder of the source
(len / stride, len %= stride) panic on a zero stride, so a zero stride
anywhere in the walk aborts the whole derivation (modelled as none); on
stride arrays with every entry positive it returns exactly the total
sizeAux value, which is therefore the value semantics of the source only
on that non-panicking domain. -/
def sizeAuxChecked : List Nat → Nat → Option (List Int × Nat)
  | [], len => some ([], len)
  | s :: rest, len =>
    match sizeAuxChecked rest len with
    | none => none
    | some r => if s = 0 then none else some (isizeCast (r.2 / s) :: r.1, r.2 % s)

/-- GridView::from_data (generic): wrap a buffer with the given strides,
zero offset, and sizes derived by sizeAux. -/
def from_data (data : List T) (stride : List Nat) : GridView T :=
  { grid := data
    stride := stride
    offset := List.replicate stride.length 0
    size := (sizeAux stride data.length).1 }

/-- Grid::from_data (the 2D convenience constructor): strides (1, stride),
height = length divided by stride, size (stride, height), zero offset. -/
def from_data2 (data : List T) (stride : Nat) : GridView T :=
  { grid := data
    stride := [1, stride]
    offset := [0, 0]
    size := [isizeCast stride, isizeCast (data.length / stride)] }

/-- Grid::from_size: storage of length the product of the extents filled
with the default value, stride 1 in dimension 0 and size of the previous
dimension otherwise (as in the source, which does not accumulate the
product), sizes cast to isize, zero offset. -/
def from_size (defaultVal : T) (size : List Nat) : GridView T :=
  { grid := List.replicate size.prod defaultVal
    stride := (List.range size.length).map fun i => if i = 0 then 1 else size.getD (i - 1) 0
    offset := List.replicate size.length 0
    size := size.map fun s => isizeCast s }

/-- PointIter of grid.rs: size holds the per-component maxima (logical size
minus the unit point), cur the next point to yield, done the exhaustion
flag. -/
structure PointIter where
  size : List Int
  cur : List Int
  done : Bool

/-- Odometer increment of PointIter::next: scan components from the last
dimension backwards; a component equal to its maximum resets to 0 and
carries, otherwise it increments and the scan stops.  None when every
component was at its maximum (the carry falls off: no increment
happened). -/
def incr : List Int → List Int → Option (List Int)
  | s :: ss, c :: cs =>
    match incr ss cs with
    | some cs2 => some (c :: cs2)
    | none => if c = s then none else some ((c + 1) :: List.replicate cs.length 0)
  | _, _ => none

/-- PointIter::next: None when done; otherwise yield the current point and
advance it, setting done (with the components all reset to 0, as the scan
of the source leaves them) when the increment overflowed. -/
def PointIter.next (it : PointIter) : Option (List Int × PointIter) :=
  if it.done then none
  else
    some (it.cur,
      match incr it.size it.cur with
      | some c => { it with cur := c }
      | none => { it with cur := List.replicate it.cur.length 0, done := true })

/-- GridView::points_iter: iterator over the logical bounds, starting at
the origin, with per-component maxima size - unit. -/
def GridView.points_iter (g : GridView T) : PointIter :=
  { size := List.zipWith (· - ·) g.size (List.replicate g.size.length 1)
    cur := List.replicate g.size.length 0
    done := false }

/-- Drive a PointIter for at most fuel steps, collecting the yielded
points; stops early when the iterator reports None. -/
def runIter : PointIter → Nat → List (List Int)
  | _, 0 => []
  | it, n + 1 =>
    match it.next with
    | none => []
    | some pr => pr.1 :: runIter pr.2 n

/-- Product of the logical extents of a size point, as a Nat (negative
components count as 0). -/
def prodSize (size : List Int) : Nat := (size.map Int.toNat).prod

/-- Strict lexicographic order on points, first component most
significant: the order in which points_iter enumerates (last component
fastest). -/
def lexLt : List Int → List Int → Prop := List.Lex (· < ·)

/-- Cow storage handle of the source, with the sharing made explicit: a
borrowed handle reads the buffer of the owner (the store, passed
separately), an owned handle carries its own buffer. -/
inductive Storage (T : Type) where
  | borrowed : Storage T
  | owned : List T → Storage T

/-- Contents currently visible through a storage handle, given the buffer
of the owner. -/
def Storage.data (store : List T) : Storage T → List T
  | .borrowed => store
  | .owned d => d

/-- Clone of a Cow handle (used by GridView::view): a borrowed handle stays
borrowed (still shares the owner buffer), an owned handle is deep-copied
(the copy has the same contents). -/
def Storage.cloneS : Storage T → Storage T
  | .borrowed => .borrowed
  | .owned d => .owned d

/-- Whether a storage handle owns its buffer. -/
def Storage.isOwned : Storage T → Bool
  | .borrowed => false
  | .owned _ => true

/-- GridView with the Cow borrowed/owned tag kept explicit. -/
structure CowGridView (T : Type) where
  cow : Storage T
  stride : List Nat
  offset : List Int
  size : List Int

/-- Read a CowGridView as a plain GridView, resolving the storage handle
against the owner buffer. -/
def CowGridView.toView (store : List T) (g : CowGridView T) : GridView T :=
  { grid := g.cow.data store
    stride := g.stride
    offset := g.offset
    size := g.size }

/-- GridView::view in the ownership-explicit model: clone the storage
handle, keep the strides, install the new offset and size window. -/
def CowGridView.viewC (g : CowGridView T) (offset size : List Int) : CowGridView T :=
  { g with cow := g.cow.cloneS, offset := offset, size := size }

/-- An owning grid (Grid of the source holds Cow::Owned storage) seen as a
CowGridView. -/
def ofOwner (g : GridView T) : CowGridView T :=
  { cow := .owned g.grid, stride := g.stride, offset := g.offset, size := g.size }

/-- GridView::set in the ownership-explicit model.  Cow::to_mut first: a
borrowed handle clones the owner buffer and becomes owned before any write,
so the write lands in the private copy; an owned handle writes its own
buffer.  The returned store is the owner buffer after the call: the source
contains no write through a borrowed handle, so it is unchanged. -/
def cowSet (store : List T) (g : CowGridView T) (p : List Int) (v : T) :
    Bool × List T × CowGridView T :=
  if (g.toView store).in_bounds p then
    let pos := (g.toView store).data_offset p
    let buf := g.cow.data store
    if pos < buf.length then (true, store, { g with cow := .owned (buf.set pos v) })
    else (false, store, { g with cow := .owned buf })
  else (false, store, g)

/-- Dot product of point components against strides (strides coerced to
Int): the mathematical linear index with no special head handling. -/
def dotL (ps : List Int) (ss : List Nat) : Int :=
  ((ps.zip ss).map fun t => t.1 * (t.2 : Int)).sum

/-- Product of the per-dimension extents of a PointIter maxima list (each
maximum plus one). -/
def prodM1 (ss : List Int) : Nat := (ss.map fun s => s.toNat + 1).prod

/-- Row-major rank of a point below the given maxima: the number of points
the odometer yields strictly before it. -/
def rank : List Int → List Int → Nat
  | _ :: ss, c :: cs => c.toNat * prodM1 ss + rank ss cs
  | _, _ => 0

/-- Odometer invariant relation, componentwise: the current component lies
between 0 and the maximum (used through List.Forall₂ over maxima and
point). -/
abbrev invRel (s c : Int) : Prop := 0 ≤ c ∧ c ≤ s

theorem get?_set_self_of_lt {α : Type} (l : List α) (i : Nat) (a : α) (h : i < l.length) :
    (l.set i a).get? i = some a := by
  simp [List.get?_eq_getElem?, List.getElem?_set_self', List.getElem?_eq_getElem, h]

/-- C7: a 2D grid built with the convenience constructor from a buffer of
four zeroes and stride 2 has logical size (2,2), and its points_iter yields
exactly (0,0), (0,1), (1,0), (1,1), in that order, before terminating. -/
theorem c7_canonical_order :
    (from_data2 ([0, 0, 0, 0] : List Nat) 2).size = [2, 2] ∧
    runIter (from_data2 ([0, 0, 0, 0] : List Nat) 2).points_iter 5 =
      [[0, 0], [0, 1], [1, 0], [1, 1]] := by
  decide

/-- C6 (evaluation at the failing input): from_size with extents (2,3,4)
derives strides (1,2,3) where the claimed row-major rule requires (1,2,6);
as a consequence the distinct in-bounds points (1,1,1) and (0,0,2) are
mapped to the same storage index. -/
theorem c6_from_size_stride :
    (from_size (0 : Nat) [2, 3, 4]).stride = [1, 2, 3] ∧
    ([1, 2, 3] : List Nat) ≠ [1, 2, 6] ∧
    (from_size (0 : Nat) [2, 3, 4]).in_bounds [1, 1, 1] = true ∧
    (from_size (0 : Nat) [2, 3, 4]).in_bounds [0, 0, 2] = true ∧
    (from_size (0 : Nat) [2, 3, 4]).data_offset [1, 1, 1] =
      (from_size (0 : Nat) [2, 3, 4]).data_offset [0, 0, 2] := by
  decide

/-- C1 (counterexample): the grid built by the generic from_data from a
buffer of nine elements with strides (2,5) has zero view offset and the
in-bounds point (1,0), yet decomposing its storage offset yields (0,0), so
the round-trip law fails for this construction. -/
theorem c1_counterexample :
    (from_data (List.replicate 9 (0 : Nat)) [2, 5]).offset = [0, 0] ∧
    (from_data (List.replicate 9 (0 : Nat)) [2, 5]).in_bounds [1, 0] = true ∧
    (from_data (List.replicate 9 (0 : Nat)) [2, 5]).offset_to_point
        ((from_data (List.replicate 9 (0 : Nat)) [2, 5]).data_offset [1, 0]) ≠ [1, 0] := by
  decide

/-- C2 (counterexample): on the 2x2 view at offset (1,1) over a 2x2 owner,
the point (1,1) is within the logical window, yet get returns no value, so
the claimed biconditional fails for views whose window exceeds the owner. -/
theorem c2_counterexample :
    ((from_data2 ([0, 1, 2, 3] : List Nat) 2).view [1, 1] [2, 2]).in_bounds [1, 1] = true ∧
    ((from_data2 ([0, 1, 2, 3] : List Nat) 2).view [1, 1] [2, 2]).get [1, 1] = none := by
  decide

/-- C5 (counterexample): the 2D grid built from a one-element buffer with
stride 2 has logical size (2,0), whose extent product is 0; yet its
points_iter yields (0,0) as its first point, a point that is not in
bounds, and is still yielding points after three steps. -/
theorem c5_counterexample :
    (from_data2 ([0] : List Nat) 2).size = [2, 0] ∧
    prodSize (from_data2 ([0] : List Nat) 2).size = 0 ∧
    runIter (from_data2 ([0] : List Nat) 2).points_iter 1 = [[0, 0]] ∧
    (from_data2 ([0] : List Nat) 2).in_bounds [0, 0] = false ∧
    (runIter (from_data2 ([0] : List Nat) 2).points_iter 3).length = 3 := by
  decide

/-- C10: the subscript operator on a 2D view is get followed by unwrap: for
an in-bounds point it returns exactly what get returns, and whenever get
returns no value it panics (modelled as none) instead of returning an
element. -/
theorem c10_index_checked (g : GridView T) (p : List Int) :
    (g.in_bounds p = true → g.indexP2 p = g.get p) ∧
    (g.get p = none → g.indexP2 p = none) := by
  refine ⟨fun _ => ?_, fun h => ?_⟩
  · unfold GridView.indexP2
    cases g.get p <;> rfl
  · unfold GridView.indexP2
    rw [h]

theorem c10_index_checked_witness :
    (from_data2 ([5] : List Nat) 1).indexP2 [0, 0] = (from_data2 ([5] : List Nat) 1).get [0, 0] :=
  (c10_index_checked (from_data2 ([5] : List Nat) 1) [0, 0]).1 (by decide)

/-- C3: whenever set on any grid or view reports success, an immediately
following get at the same point returns the written value. -/
theorem c3_write_read (g : GridView T) (p : List Int) (v : T)
    (h : (g.set p v).1 = true) : (g.set p v).2.get p = some v := by
  unfold GridView.set at h ⊢
  by_cases hb : g.in_bounds p
  · simp only [hb, if_true] at h ⊢
    by_cases hlt : g.data_offset p < g.grid.length
    · simp only [hlt, if_true]
      show GridView.get _ p = some v
      unfold GridView.get
      have hb2 : (({ g with grid := g.grid.set (g.data_offset p) v } : GridView T)).in_bounds p
          = g.in_bounds p := rfl
      have hoff : (({ g with grid := g.grid.set (g.data_offset p) v } : GridView T)).data_offset p
          = g.data_offset p := rfl
      rw [hb2, hoff, hb, if_pos rfl]
      exact get?_set_self_of_lt _ _ _ (by simpa using hlt)
    · simp [hlt] at h
  · simp [hb] at h

theorem c3_write_read_witness :
    ((from_data2 ([0, 0, 0, 0] : List Nat) 2).set [0, 1] 7).2.get [0, 1] = some 7 :=
  c3_write_read (from_data2 ([0, 0, 0, 0] : List Nat) 2) [0, 1] 7 (by decide)

/-- C4: mutating through a view never changes the buffer of the owner: set
in the ownership-explicit model returns the owner buffer unchanged (the
storage of a borrowing view is cloned by to_mut before the write, and a
view over an owning grid already received a deep copy when it was
created), hence every element visible through any grid over the owner
buffer is unchanged; moreover after a successful set the view owns its
storage. -/
theorem c4_view_independence (store : List T) (V : CowGridView T) (p : List Int) (v : T) :
    (cowSet store V p v).2.1 = store ∧
    (∀ (stride : List Nat) (offset size : List Int) (q : List Int),
      (GridView.mk (cowSet store V p v).2.1 stride offset size).get q =
        (GridView.mk store stride offset size).get q) ∧
    ((cowSet store V p v).1 = true → (cowSet store V p v).2.2.cow.isOwned = true) := by
  have hstore : (cowSet store V p v).2.1 = store := by
    unfold cowSet
    dsimp only
    split
    · split <;> rfl
    · rfl
  refine ⟨hstore, fun stride offset size q => by rw [hstore], fun h => ?_⟩
  unfold cowSet at h ⊢
  dsimp only at h ⊢
  split at h
  · split at h
    · simp_all [Storage.isOwned]
    · simp at h
  · simp at h

theorem c4_view_independence_witness :
    (cowSet [1, 2, 3, 4] (CowGridView.mk (Storage.borrowed) [1, 2] [0, 0] [2, 2])
        [0, 0] (9 : Nat)).2.1 = [1, 2, 3, 4] ∧
    (cowSet [1, 2, 3, 4] (CowGridView.mk (Storage.borrowed) [1, 2] [0, 0] [2, 2])
        [0, 0] (9 : Nat)).2.2.cow.isOwned = true :=
  ⟨(c4_view_independence [1, 2, 3, 4]
      (CowGridView.mk (Storage.borrowed) [1, 2] [0, 0] [2, 2]) [0, 0] (9 : Nat)).1,
   (c4_view_independence [1, 2, 3, 4]
      (CowGridView.mk (Storage.borrowed) [1, 2] [0, 0] [2, 2]) [0, 0] (9 : Nat)).2.2 (by decide)⟩

theorem isizeCast_eq (n : Nat) (h : n < 2 ^ 63) : isizeCast n = (n : Int) := by
  have h64 : n < USIZE := by
    have : (2 : Nat) ^ 63 < 2 ^ 64 := by norm_num
    unfold USIZE
    omega
  unfold isizeCast
  rw [Nat.mod_eq_of_lt h64, if_pos h]

theorem foldr_mod_le (ss : List Nat) (len : Nat) :
    ss.foldr (fun s l => l % s) len ≤ len := by
  induction ss with
  | nil => exact Nat.le_refl _
  | cons s rest ih =>
    calc (s :: rest).foldr (fun s l => l % s) len
        = (rest.foldr (fun s l => l % s) len) % s := rfl
      _ ≤ rest.foldr (fun s l => l % s) len := Nat.mod_le _ _
      _ ≤ len := ih

theorem sizeAux_eq (ss : List Nat) (len : Nat) (hlen : len < 2 ^ 63) :
    (sizeAux ss len).1 =
      (List.range ss.length).map (fun i =>
        ((((ss.drop (i + 1)).foldr (fun s l => l % s) len) / ss.getD i 1 : Nat) : Int)) ∧
    (sizeAux ss len).2 = ss.foldr (fun s l => l % s) len := by
  induction ss with
  | nil => simp [sizeAux]
  | cons s rest ih =>
    have hq : (sizeAux rest len).2 / s < 2 ^ 63 := by
      rw [ih.2]
      exact Nat.lt_of_le_of_lt (Nat.le_trans (Nat.div_le_self _ _) (foldr_mod_le _ _)) hlen
    constructor
    · show isizeCast ((sizeAux rest len).2 / s) :: (sizeAux rest len).1 = _
      rw [List.length_cons, List.range_succ_eq_map, List.map_cons, List.map_map]
      congr 1
      · rw [isizeCast_eq _ hq, ih.2]
        rfl
      · rw [ih.1]
        rfl
    · show (sizeAux rest len).2 % s = _
      rw [ih.2]
      rfl

theorem sizeAuxChecked_eq : ∀ (ss : List Nat) (len : Nat), (∀ s ∈ ss, 0 < s) →
    sizeAuxChecked ss len = some (sizeAux ss len) := by
  intro ss
  induction ss with
  | nil => intro len _; rfl
  | cons s rest ih =>
    intro len h
    have hs : ¬ s = 0 := by
      have := h s (List.mem_cons_self _ _)
      omega
    rw [show sizeAuxChecked (s :: rest) len
        = match sizeAuxChecked rest len with
          | none => none
          | some r => if s = 0 then none
            else some (isizeCast (r.2 / s) :: r.1, r.2 % s) from rfl]
    rw [ih len fun x hx => h x (List.mem_cons_of_mem _ hx)]
    show (if s = 0 then none
        else some (isizeCast ((sizeAux rest len).2 / s) :: (sizeAux rest len).1,
          (sizeAux rest len).2 % s))
      = some (sizeAux (s :: rest) len)
    rw [if_neg hs]
    rfl

/-- C8 (counterexample): with the stride array (0,5) and a nine-element
buffer, the size derivation of the source reduces the length modulo 5 and
then divides by the zero stride, which panics (modelled as none): no size
is derived at all, so the derivation rule does not hold for every
per-dimension stride array. -/
theorem c8_counterexample :
    sizeAuxChecked [0, 5] (List.replicate 9 (0 : Nat)).length = none := by
  decide

/-- C8 (amended): for every data buffer and every stride array all of
whose entries are positive (a zero stride makes the source panic on
division by zero, deriving nothing — see the counterexample), the
derivation does not panic and from_data derives each size component by
dividing the remaining buffer length (the original length reduced by the
remainders of all higher-dimension strides, highest first) by the stride
of that dimension; in particular the outermost (last) dimension size is
the floor of buffer length over its stride, the trailing remainder being
silently dropped there and handed down to the lower dimensions. -/
theorem c8_from_data_sizes (data : List T) (stride : List Nat)
    (hlen : data.length < 2 ^ 63)
    (hstr : ∀ s ∈ stride, 0 < s) :
    sizeAuxChecked stride data.length = some (sizeAux stride data.length) ∧
    (from_data data stride).size =
      (List.range stride.length).map (fun i =>
        ((((stride.drop (i + 1)).foldr (fun s l => l % s) data.length) / stride.getD i 1 : Nat) : Int)) ∧
    (stride ≠ [] →
      (from_data data stride).size.getD (stride.length - 1) 0 =
        ((data.length / stride.getD (stride.length - 1) 1 : Nat) : Int)) := by
  have h1 := (sizeAux_eq stride data.length hlen).1
  refine ⟨sizeAuxChecked_eq stride data.length hstr, h1, fun hne => ?_⟩
  have hpos : 0 < stride.length := List.length_pos.mpr hne
  show (from_data data stride).size.getD (stride.length - 1) 0 = _
  have : (from_data data stride).size = _ := h1
  rw [this]
  rw [List.getD_eq_getElem?_getD, List.getElem?_map]
  rw [List.getElem?_range (by omega)]
  simp only [Option.map_some', Option.getD_some]
  rw [List.drop_eq_nil_of_le (by omega)]
  rfl

theorem c8_from_data_sizes_witness :
    (from_data (List.replicate 7 (0 : Nat)) [1, 2]).size.getD 1 0 = ((7 / 2 : Nat) : Int) := by
  simpa using
    (c8_from_data_sizes (List.replicate 7 (0 : Nat)) [1, 2] (by norm_num) (by decide)).2.2
      (by simp)

theorem usizeCast_spec (x : Int) : ((usizeCast x : Nat) : Int) = x % ((USIZE : Nat) : Int) := by
  unfold usizeCast
  exact Int.toNat_of_nonneg (Int.emod_nonneg x (by norm_num [USIZE]))

theorem isizeCast_modEq (s : Nat) :
    isizeCast s ≡ (s : Int) [ZMOD ((USIZE : Nat) : Int)] := by
  have hmod : ((s % USIZE : Nat) : Int) = (s : Int) % ((USIZE : Nat) : Int) :=
    Int.natCast_mod s USIZE
  unfold isizeCast
  split
  · rw [hmod]
    exact Int.emod_emod_of_dvd _ dvd_rfl
  · show ((s % USIZE : Nat) : Int) - ((USIZE : Nat) : Int) ≡ _ [ZMOD _]
    unfold Int.ModEq
    rw [Int.sub_emod, hmod, Int.emod_emod_of_dvd _ dvd_rfl, Int.emod_self, sub_zero,
      Int.emod_emod_of_dvd _ dvd_rfl]

theorem castSum_modEq (l : List (Int × Nat)) :
    (l.map fun t => t.1 * isizeCast t.2).sum ≡
      (l.map fun t => t.1 * (t.2 : Int)).sum [ZMOD ((USIZE : Nat) : Int)] := by
  induction l with
  | nil => rfl
  | cons t rest ih =>
    simp only [List.map_cons, List.sum_cons]
    exact Int.ModEq.add (Int.ModEq.mul_left _ (isizeCast_modEq t.2)) ih

theorem data_offset_emod (g : GridView T) (p : List Int) :
    ((g.data_offset p : Nat) : Int) = g.offSpec p % ((USIZE : Nat) : Int) := by
  unfold GridView.data_offset GridView.offSpec
  dsimp only
  rw [Int.natCast_mod, Nat.cast_add, usizeCast_spec, usizeCast_spec, ← Int.add_emod]
  exact Int.ModEq.add_left _ (castSum_modEq _)

theorem data_offset_eq_offSpec (g : GridView T) (p : List Int)
    (h0 : 0 ≤ g.offSpec p) (h1 : g.offSpec p < ((USIZE : Nat) : Int)) :
    ((g.data_offset p : Nat) : Int) = g.offSpec p := by
  rw [data_offset_emod]
  exact Int.emod_eq_of_lt h0 h1

theorem get?_isSome_iff {α : Type} (l : List α) (n : Nat) :
    (l.get? n).isSome = true ↔ n < l.length := by
  rw [List.get?_eq_getElem?, Option.isSome_iff_exists]
  constructor
  · rintro ⟨a, ha⟩
    exact (List.getElem?_eq_some_iff.mp ha).1
  · intro h
    exact ⟨l[n], List.getElem?_eq_some_iff.mpr ⟨h, rfl⟩⟩

/-- C2 (amended): on every grid or view that satisfies the storage
invariant of the data model section of the specification, namely that the
mathematical storage index of every in-bounds point is a valid index into
the backing storage, checked access succeeds exactly on the in-bounds
points: get p is some value if and only if in_bounds p (and get, being a
total function into Option, never panics).  All grids produced by the
constructors satisfy the invariant; views whose window exceeds the owner
(see the counterexample) do not. -/
theorem c2_bounds_consistency (g : GridView T)
    (hlen : g.grid.length ≤ USIZE)
    (hinv : ∀ q, g.in_bounds q = true →
      0 ≤ g.offSpec q ∧ g.offSpec q < (g.grid.length : Int)) :
    ∀ p, (g.get p).isSome = g.in_bounds p := by
  intro p
  unfold GridView.get
  by_cases hb : g.in_bounds p
  · rw [if_pos hb, hb]
    obtain ⟨h0, h1⟩ := hinv p hb
    have hcast : ((g.data_offset p : Nat) : Int) = g.offSpec p :=
      data_offset_eq_offSpec g p h0
        (lt_of_lt_of_le h1 (by exact_mod_cast hlen))
    have hlt : g.data_offset p < g.grid.length := by
      have := hcast ▸ h1
      exact_mod_cast this
    exact (get?_isSome_iff _ _).mpr hlt
  · rw [if_neg hb]
    simp only [Option.isSome_none]
    exact ((Bool.not_eq_true _).mp hb).symm

theorem c2_bounds_consistency_witness :
    ((from_data2 ([0, 1, 2, 3] : List Nat) 2).get [0, 1]).isSome
      = (from_data2 ([0, 1, 2, 3] : List Nat) 2).in_bounds [0, 1] := by
  refine c2_bounds_consistency _ (by norm_num [from_data2, USIZE]) ?_ [0, 1]
  intro q hq
  match q with
  | [] => exact ⟨by decide, by decide⟩
  | [a] =>
    have ha : 0 ≤ a ∧ a < 2 := by
      have := List.all_eq_true.mp hq (a, 2) (by simp [from_data2, isizeCast, USIZE])
      simpa using this
    have hoff : (from_data2 ([0, 1, 2, 3] : List Nat) 2).offSpec [a] = a := by
      simp [GridView.offSpec, from_data2]
    have hglen : (((from_data2 ([0, 1, 2, 3] : List Nat) 2).grid.length : Nat) : Int) = 4 := by
      simp [from_data2]
    rw [hoff, hglen]
    omega
  | a :: b :: rest =>
    have hab : (0 ≤ a ∧ a < 2) ∧ (0 ≤ b ∧ b < 2) := by
      constructor
      · have := List.all_eq_true.mp hq (a, 2) (by simp [from_data2, isizeCast, USIZE])
        simpa using this
      · have := List.all_eq_true.mp hq (b, 2) (by simp [from_data2, isizeCast, USIZE])
        simpa using this
    have hoff : (from_data2 ([0, 1, 2, 3] : List Nat) 2).offSpec (a :: b :: rest) = a + b * 2 := by
      simp [GridView.offSpec, from_data2]
    have hglen : (((from_data2 ([0, 1, 2, 3] : List Nat) 2).grid.length : Nat) : Int) = 4 := by
      simp [from_data2]
    rw [hoff, hglen]
    omega

/-- C9: on a 4x4 owning grid holding the values 0 to 15, the 2x2 view at
offset (1,1) reads at its local origin the same element, with value 5,
that the owner reads at (1,1); and in general an access at local point p
through a view reads the storage index given by the first component of
p plus offset, plus the sum over the higher dimensions of the components
of p plus offset times the strides (the strides of the viewed grid),
whenever that mathematical index is representable as a usize. -/
theorem c9_view_offsetting :
    (((from_data2 (List.range 16) 4).view [1, 1] [2, 2]).get [0, 0]
        = (from_data2 (List.range 16) 4).get [1, 1] ∧
      ((from_data2 (List.range 16) 4).view [1, 1] [2, 2]).get [0, 0] = some 5) ∧
    ∀ (g : GridView T) (offset size p : List Int),
      0 ≤ (g.view offset size).offSpec p →
      (g.view offset size).offSpec p < ((USIZE : Nat) : Int) →
      (((g.view offset size).data_offset p : Nat) : Int) =
        (List.zipWith (· + ·) p offset).headI +
          ((((List.zipWith (· + ·) p offset).zip g.stride).drop 1).map
            fun t => t.1 * (t.2 : Int)).sum := by
  refine ⟨⟨by decide, by decide⟩, fun g offset size p h0 h1 => ?_⟩
  rw [data_offset_eq_offSpec _ _ h0 h1]
  rfl

theorem c9_view_offsetting_witness :
    ((((from_data2 (List.range 16) 4).view [1, 1] [2, 2]).data_offset [0, 0] : Nat) : Int) =
      (List.zipWith (· + ·) ([0, 0] : List Int) [1, 1]).headI +
        ((((List.zipWith (· + ·) ([0, 0] : List Int) [1, 1]).zip
            (from_data2 (List.range 16) 4).stride).drop 1).map
          fun t => t.1 * (t.2 : Int)).sum :=
  (@c9_view_offsetting Nat).2 (from_data2 (List.range 16) 4) [1, 1] [2, 2] [0, 0]
    (by decide) (by decide)

theorem dotL_cons (a : Int) (as : List Int) (b : Nat) (bs : List Nat) :
    dotL (a :: as) (b :: bs) = a * (b : Int) + dotL as bs := by
  simp [dotL]

theorem dotL_nonneg : ∀ (ps : List Int) (ss : List Nat), (∀ x ∈ ps, 0 ≤ x) → 0 ≤ dotL ps ss := by
  intro ps
  induction ps with
  | nil => intro ss _; simp [dotL]
  | cons a as ih =>
    intro ss h
    cases ss with
    | nil => simp [dotL]
    | cons b bs =>
      rw [dotL_cons]
      have h1 : 0 ≤ a := h a (List.mem_cons_self a as)
      have h2 := ih bs fun x hx => h x (List.mem_cons_of_mem _ hx)
      have h3 : (0 : Int) ≤ (b : Int) := by positivity
      exact add_nonneg (mul_nonneg h1 h3) h2

theorem dotL_take_succ :
    ∀ (ps : List Int) (ss : List Nat) (i : Nat), i < ps.length → i < ss.length →
      dotL (ps.take (i + 1)) (ss.take (i + 1)) =
        dotL (ps.take i) (ss.take i) + ps.getD i 0 * ((ss.getD i 1 : Nat) : Int) := by
  intro ps
  induction ps with
  | nil => intro ss i h1 _; simp at h1
  | cons a as ih =>
    intro ss i h1 h2
    cases ss with
    | nil => simp at h2
    | cons b bs =>
      cases i with
      | zero => simp [dotL]
      | succ k =>
        simp only [List.take_succ_cons, dotL_cons, List.getD_cons_succ]
        rw [ih bs k (by simpa using h1) (by simpa using h2)]
        ring

theorem zipWith_add_replicate_zero :
    ∀ (p : List Int) (n : Nat), p.length = n →
      List.zipWith (· + ·) p (List.replicate n 0) = p := by
  intro p
  induction p with
  | nil => intro n _; simp
  | cons a as ih =>
    intro n h
    cases n with
    | zero => simp at h
    | succ m =>
      rw [List.replicate_succ]
      simp only [List.zipWith_cons_cons, add_zero]
      rw [ih m (by simpa using h)]

theorem headI_sum_eq_dotL (a : Int) (as : List Int) (bs : List Nat) :
    (a :: as).headI + ((((a :: as).zip (1 :: bs)).drop 1).map fun t => t.1 * (t.2 : Int)).sum
      = dotL (a :: as) (1 :: bs) := by
  simp [dotL]

theorem otpAux_decompose :
    ∀ (ss : List Nat) (ps : List Int) (r : Int),
      ps.length = ss.length →
      (∀ s ∈ ss, 0 < s) →
      (∀ x ∈ ps, 0 ≤ x) →
      0 ≤ r →
      (∀ k, k < ss.length → r + dotL (ps.take k) (ss.take k) < ((ss.getD k 1 : Nat) : Int)) →
      r + dotL ps ss < 2 ^ 63 →
      otpAux ss ((r + dotL ps ss).toNat) = (ps, r.toNat) := by
  intro ss
  induction ss with
  | nil =>
    intro ps r hlen _ _ _ _ _
    have hps : ps = [] := List.length_eq_zero.mp hlen
    subst hps
    simp [otpAux, dotL]
  | cons s rest ih =>
    intro ps r hlen hpos hnn hr hchain htop
    cases ps with
    | nil => simp at hlen
    | cons p ps' =>
      have hlen' : ps'.length = rest.length := by simpa using hlen
      have hs : 0 < s := hpos s (List.mem_cons_self _ _)
      have hp : 0 ≤ p := hnn p (List.mem_cons_self _ _)
      have hrs : r < (s : Int) := by
        have h0 := hchain 0 (by simp)
        simpa [dotL] using h0
      have hr' : 0 ≤ r + p * (s : Int) :=
        add_nonneg hr (mul_nonneg hp (by positivity))
      have hchain' : ∀ k, k < rest.length →
          (r + p * (s : Int)) + dotL (ps'.take k) (rest.take k) < ((rest.getD k 1 : Nat) : Int) := by
        intro k hk
        have h1 := hchain (k + 1) (by simpa using Nat.succ_lt_succ hk)
        simp only [List.take_succ_cons, dotL_cons, List.getD_cons_succ] at h1
        linarith
      have htop' : (r + p * (s : Int)) + dotL ps' rest < 2 ^ 63 := by
        rw [dotL_cons] at htop
        linarith
      have hchild := ih ps' (r + p * (s : Int)) hlen'
        (fun x hx => hpos x (List.mem_cons_of_mem _ hx))
        (fun x hx => hnn x (List.mem_cons_of_mem _ hx)) hr' hchain' htop'
      have harg : (r + dotL (p :: ps') (s :: rest)).toNat
          = ((r + p * (s : Int)) + dotL ps' rest).toNat := by
        rw [dotL_cons]
        ring_nf
      rw [harg]
      show (isizeCast ((otpAux rest _).2 / s) :: (otpAux rest _).1, (otpAux rest _).2 % s) = _
      rw [hchild]
      have hdnn : 0 ≤ dotL ps' rest :=
        dotL_nonneg ps' rest fun x hx => hnn x (List.mem_cons_of_mem _ hx)
      have hsplit : (r + p * (s : Int)).toNat = r.toNat + p.toNat * s := by
        rcases Int.eq_ofNat_of_zero_le hp with ⟨m, rfl⟩
        rcases Int.eq_ofNat_of_zero_le hr with ⟨n, rfl⟩
        have hcast : ((n : Int) + (m : Int) * (s : Int)) = ((n + m * s : Nat) : Int) := by
          push_cast
          ring
        rw [hcast, Int.toNat_ofNat, Int.toNat_ofNat, Int.toNat_ofNat]
      have hrlt : r.toNat < s := by omega
      have hdiv : (r.toNat + p.toNat * s) / s = p.toNat := by
        rw [mul_comm, Nat.add_mul_div_left _ _ hs, Nat.div_eq_of_lt hrlt, Nat.zero_add]
      have hmod : (r.toNat + p.toNat * s) % s = r.toNat := by
        rw [Nat.add_mul_mod_self_right]
        exact Nat.mod_eq_of_lt hrlt
      have hp63 : p < 2 ^ 63 := by
        have hple : p ≤ p * (s : Int) := le_mul_of_one_le_right hp (by exact_mod_cast hs)
        linarith
      have hcastp : isizeCast p.toNat = p := by
        rw [isizeCast_eq _ (by omega), Int.toNat_of_nonneg hp]
      dsimp only
      rw [hsplit, hdiv, hmod, hcastp]

theorem in_bounds_comp (g : GridView T) (p : List Int) (h : g.in_bounds p = true)
    (i : Nat) (h1 : i < p.length) (h2 : i < g.size.length) :
    0 ≤ p.getD i 0 ∧ p.getD i 0 < g.size.getD i 0 := by
  unfold GridView.in_bounds at h
  have hz : i < (p.zip g.size).length := by
    rw [List.length_zip]
    omega
  have hmem : (p.getD i 0, g.size.getD i 0) ∈ p.zip g.size := by
    rw [List.getD_eq_getElem p 0 h1, List.getD_eq_getElem g.size 0 h2]
    have hzz : (p.zip g.size)[i] = (p[i], g.size[i]) := List.getElem_zip
    rw [← hzz]
    exact List.getElem_mem hz
  have := List.all_eq_true.mp h _ hmem
  simpa using this

/-- C1 (amended): the round-trip law holds for every grid or view with
zero view offset whose stride and size arrays satisfy the row-major layout
invariant of the specification: first stride equal to 1 and, for each
dimension, the size times the stride of the dimension below fitting in the
next stride (with the top product representable in an isize).  Every grid
the 2D constructors build satisfies these conditions, as does the generic
from_data whenever its stride argument starts with 1; the counterexample
shows from_data with another leading stride violates the law, and the
from_size stride slip recorded with claim C6 violates it for three or more
dimensions. -/
theorem c1_round_trip_layout (g : GridView T) (p : List Int)
    (hN : 0 < g.stride.length)
    (hlenp : p.length = g.stride.length)
    (hlens : g.size.length = g.stride.length)
    (hoff : g.offset = List.replicate g.stride.length 0)
    (hhead : g.stride.headI = 1)
    (hcompat : ∀ i, i + 1 < g.stride.length →
      g.size.getD i 0 * ((g.stride.getD i 1 : Nat) : Int) ≤ ((g.stride.getD (i + 1) 1 : Nat) : Int))
    (htop : g.size.getD (g.stride.length - 1) 0 *
        ((g.stride.getD (g.stride.length - 1) 1 : Nat) : Int) ≤ 2 ^ 63)
    (hin : g.in_bounds p = true) :
    g.offset_to_point (g.data_offset p) = p := by
  have hcomp : ∀ i, i < g.stride.length → 0 ≤ p.getD i 0 ∧ p.getD i 0 < g.size.getD i 0 :=
    fun i hi => in_bounds_comp g p hin i (by omega) (by omega)
  have hposIdx : ∀ i, i < g.stride.length → 0 < g.stride.getD i 1 := by
    intro i
    induction i with
    | zero =>
      intro _
      cases hstr : g.stride with
      | nil => rw [hstr] at hN; simp at hN
      | cons a l =>
        have ha : a = 1 := by rw [hstr] at hhead; simpa using hhead
        simp [ha]
    | succ k ihk =>
      intro hk
      have hk' : k < g.stride.length := by omega
      have h1 := hcompat k hk
      have h2 := (hcomp k hk').1
      have h3 := (hcomp k hk').2
      have h4 := ihk hk'
      have hszk : (1 : Int) ≤ g.size.getD k 0 := by omega
      have hstk : (1 : Int) ≤ ((g.stride.getD k 1 : Nat) : Int) := by exact_mod_cast h4
      have h5 : (1 : Int) ≤ g.size.getD k 0 * ((g.stride.getD k 1 : Nat) : Int) := by nlinarith
      have h6 : (1 : Int) ≤ ((g.stride.getD (k + 1) 1 : Nat) : Int) := le_trans h5 h1
      omega
  have hB : ∀ k, k < g.stride.length →
      dotL (p.take k) (g.stride.take k) ≤ ((g.stride.getD k 1 : Nat) : Int) - 1 := by
    intro k
    induction k with
    | zero =>
      intro _
      have h0 : g.stride.getD 0 1 = 1 := by
        cases hstr : g.stride with
        | nil => rw [hstr] at hN; simp at hN
        | cons a l => rw [hstr] at hhead; simpa using hhead
      rw [h0]
      simp [dotL]
    | succ k ihk =>
      intro hk
      have hk' : k < g.stride.length := by omega
      have hiter := dotL_take_succ p g.stride k (by omega) hk'
      have h1 := ihk hk'
      have h2 := hcompat k hk
      have h3 := (hcomp k hk').1
      have h4 := (hcomp k hk').2
      have hstnn : (0 : Int) ≤ ((g.stride.getD k 1 : Nat) : Int) := by positivity
      have hmul : p.getD k 0 * ((g.stride.getD k 1 : Nat) : Int)
          ≤ (g.size.getD k 0 - 1) * ((g.stride.getD k 1 : Nat) : Int) :=
        mul_le_mul_of_nonneg_right (by omega) hstnn
      have hexp : (g.size.getD k 0 - 1) * ((g.stride.getD k 1 : Nat) : Int)
          = g.size.getD k 0 * ((g.stride.getD k 1 : Nat) : Int)
            - ((g.stride.getD k 1 : Nat) : Int) := by ring
      rw [hiter]
      linarith
  have hfull : dotL p g.stride < 2 ^ 63 := by
    have hlast : g.stride.length - 1 < g.stride.length := by omega
    have hiter := dotL_take_succ p g.stride (g.stride.length - 1) (by omega) hlast
    have heq : g.stride.length - 1 + 1 = g.stride.length := by omega
    rw [heq] at hiter
    have htakep : List.take g.stride.length p = p := by
      rw [← hlenp]
      exact List.take_length p
    have htakes : List.take g.stride.length g.stride = g.stride := List.take_length g.stride
    rw [htakep, htakes] at hiter
    have h1 := hB (g.stride.length - 1) hlast
    have h3 := (hcomp (g.stride.length - 1) hlast).1
    have h4 := (hcomp (g.stride.length - 1) hlast).2
    have hstnn : (0 : Int) ≤ ((g.stride.getD (g.stride.length - 1) 1 : Nat) : Int) := by positivity
    have hmul : p.getD (g.stride.length - 1) 0 *
          ((g.stride.getD (g.stride.length - 1) 1 : Nat) : Int)
        ≤ (g.size.getD (g.stride.length - 1) 0 - 1) *
          ((g.stride.getD (g.stride.length - 1) 1 : Nat) : Int) :=
      mul_le_mul_of_nonneg_right (by omega) hstnn
    have hexp : (g.size.getD (g.stride.length - 1) 0 - 1) *
          ((g.stride.getD (g.stride.length - 1) 1 : Nat) : Int)
        = g.size.getD (g.stride.length - 1) 0 *
            ((g.stride.getD (g.stride.length - 1) 1 : Nat) : Int)
          - ((g.stride.getD (g.stride.length - 1) 1 : Nat) : Int) := by ring
    rw [hiter]
    linarith
  have hnnp : ∀ x ∈ p, 0 ≤ x := by
    intro x hx
    obtain ⟨i, hi, rfl⟩ := List.mem_iff_getElem.mp hx
    have h0 := (hcomp i (by omega)).1
    rwa [List.getD_eq_getElem p 0 hi] at h0
  have hposMem : ∀ s ∈ g.stride, 0 < s := by
    intro s hs
    obtain ⟨i, hi, rfl⟩ := List.mem_iff_getElem.mp hs
    have h0 := hposIdx i hi
    rwa [List.getD_eq_getElem g.stride 1 hi] at h0
  have hchain : ∀ k, k < g.stride.length →
      (0 : Int) + dotL (p.take k) (g.stride.take k) < ((g.stride.getD k 1 : Nat) : Int) := by
    intro k hk
    have := hB k hk
    linarith
  obtain ⟨a, as, hp'⟩ : ∃ a as, p = a :: as := by
    cases hpp : p with
    | nil => rw [hpp] at hlenp; rw [← hlenp] at hN; simp at hN
    | cons a as => exact ⟨a, as, rfl⟩
  obtain ⟨bs, hstr⟩ : ∃ bs, g.stride = 1 :: bs := by
    cases hss : g.stride with
    | nil => rw [hss] at hN; simp at hN
    | cons b l =>
      have hb : b = 1 := by rw [hss] at hhead; simpa using hhead
      exact ⟨l, by rw [hb]⟩
  have hc : List.zipWith (· + ·) p g.offset = p := by
    rw [hoff, ← hlenp]
    exact zipWith_add_replicate_zero p p.length rfl
  have hspec : g.offSpec p = dotL p g.stride := by
    unfold GridView.offSpec
    dsimp only
    rw [hc, hp', hstr]
    exact headI_sum_eq_dotL a as bs
  have hnn0 : 0 ≤ dotL p g.stride := dotL_nonneg p g.stride hnnp
  have hUS : (2 : Int) ^ 63 < ((USIZE : Nat) : Int) := by norm_num [USIZE]
  have hoffeq : ((g.data_offset p : Nat) : Int) = dotL p g.stride := by
    rw [data_offset_eq_offSpec g p (by rw [hspec]; exact hnn0)
      (by rw [hspec]; exact lt_trans hfull hUS)]
    exact hspec
  have hargN : g.data_offset p = (dotL p g.stride).toNat := by omega
  have hdec := otpAux_decompose g.stride p 0 hlenp hposMem hnnp (le_refl 0)
    hchain (by simpa using hfull)
  unfold GridView.offset_to_point
  rw [hargN, show (dotL p g.stride).toNat = ((0 : Int) + dotL p g.stride).toNat from by
    rw [zero_add], hdec]

theorem c1_round_trip_layout_witness :
    (from_data2 ([10, 11, 12, 13, 14, 15] : List Nat) 3).offset_to_point
      ((from_data2 ([10, 11, 12, 13, 14, 15] : List Nat) 3).data_offset [2, 1]) = [2, 1] :=
  c1_round_trip_layout (from_data2 ([10, 11, 12, 13, 14, 15] : List Nat) 3) [2, 1]
    (by decide) (by decide) (by decide) (by decide) (by decide)
    (by
      intro i hi
      have hlen2 : (from_data2 ([10, 11, 12, 13, 14, 15] : List Nat) 3).stride.length = 2 := rfl
      rw [hlen2] at hi
      have h0 : i = 0 := by omega
      subst h0
      decide)
    (by decide) (by decide)

theorem lexLt_trans {a b c : List Int} (h1 : lexLt a b) (h2 : lexLt b c) : lexLt a c := by
  show List.Lex (· < ·) a c
  exact IsTrans.trans a b c h1 h2

theorem lexLt_irrefl : ∀ (a : List Int), ¬ lexLt a a := by
  intro a
  induction a with
  | nil => intro h; cases h
  | cons x xs ih =>
    intro h
    cases h with
    | rel h1 => exact lt_irrefl x h1
    | cons h1 => exact ih h1

theorem prodM1_cons (a : Int) (l : List Int) :
    prodM1 (a :: l) = (a.toNat + 1) * prodM1 l := by
  simp [prodM1]

theorem prodM1_pos (ss : List Int) : 0 < prodM1 ss := by
  unfold prodM1
  apply List.prod_pos
  intro a ha
  obtain ⟨x, _, rfl⟩ := List.mem_map.mp ha
  omega

theorem prodSize_cons (a : Int) (l : List Int) :
    prodSize (a :: l) = a.toNat * prodSize l := by
  simp [prodSize]

theorem forall₂_fst_nonneg : ∀ (ss cs : List Int),
    List.Forall₂ invRel ss cs → ∀ x ∈ ss, 0 ≤ x := by
  intro ss cs h
  induction h with
  | nil => intro x hx; simp at hx
  | cons h1 _ ih =>
    intro x hx
    rcases List.mem_cons.mp hx with rfl | hx2
    · exact le_trans h1.1 h1.2
    · exact ih x hx2

theorem forall₂_replicate : ∀ (ss : List Int), (∀ x ∈ ss, 0 ≤ x) →
    List.Forall₂ invRel ss (List.replicate ss.length 0) := by
  intro ss
  induction ss with
  | nil => intro _; exact List.Forall₂.nil
  | cons s rest ih =>
    intro h
    rw [List.length_cons, List.replicate_succ]
    exact List.Forall₂.cons ⟨le_refl 0, h s (List.mem_cons_self _ _)⟩
      (ih fun x hx => h x (List.mem_cons_of_mem _ hx))

theorem rank_zeros : ∀ (ss : List Int) (n : Nat), ss.length = n →
    rank ss (List.replicate n 0) = 0 := by
  intro ss
  induction ss with
  | nil => intro n _; cases n <;> rfl
  | cons s rest ih =>
    intro n h
    cases n with
    | zero => simp at h
    | succ m =>
      rw [List.replicate_succ]
      show (0 : Int).toNat * prodM1 rest + rank rest (List.replicate m 0) = 0
      rw [ih m (by simpa using h)]
      simp

theorem rank_self : ∀ (ss : List Int), (∀ x ∈ ss, 0 ≤ x) → rank ss ss = prodM1 ss - 1 := by
  intro ss
  induction ss with
  | nil => intro _; rfl
  | cons s rest ih =>
    intro h
    have hp := prodM1_pos rest
    show s.toNat * prodM1 rest + rank rest rest = prodM1 (s :: rest) - 1
    rw [ih fun x hx => h x (List.mem_cons_of_mem _ hx), prodM1_cons]
    have he : (s.toNat + 1) * prodM1 rest = s.toNat * prodM1 rest + prodM1 rest := by ring
    omega

theorem rank_lt_prod : ∀ (ss cs : List Int),
    List.Forall₂ invRel ss cs → rank ss cs < prodM1 ss := by
  intro ss
  induction ss with
  | nil =>
    intro cs h
    cases h
    simp [rank, prodM1]
  | cons s rest ih =>
    intro cs h
    cases h with
    | cons h1 h2 =>
      have hlt := ih _ h2
      have h3 : (Prod.fst (0, 0) : Int) = 0 := rfl
      rename_i b l
      show b.toNat * prodM1 rest + rank rest l < prodM1 (s :: rest)
      rw [prodM1_cons]
      have hbs : b.toNat ≤ s.toNat := by
        have := h1.1
        have := h1.2
        omega
      have hmul : (b.toNat + 1) * prodM1 rest ≤ (s.toNat + 1) * prodM1 rest :=
        Nat.mul_le_mul_right _ (by omega)
      have he1 : (b.toNat + 1) * prodM1 rest = b.toNat * prodM1 rest + prodM1 rest := by ring
      omega

theorem incr_none_eq : ∀ (ss cs : List Int),
    List.Forall₂ invRel ss cs → incr ss cs = none → cs = ss := by
  intro ss
  induction ss with
  | nil =>
    intro cs h _
    cases h
    rfl
  | cons s rest ih =>
    intro cs h hnone
    cases h with
    | cons h1 h2 =>
      rename_i b l
      cases hincr : incr rest l with
      | some cs2 => simp [incr, hincr] at hnone
      | none =>
        by_cases hbs : b = s
        · rw [hbs, ih l h2 hincr]
        · simp [incr, hincr, hbs] at hnone

theorem incr_lex : ∀ (ss cs cs' : List Int), incr ss cs = some cs' → lexLt cs cs' := by
  intro ss
  induction ss with
  | nil =>
    intro cs cs' h
    cases cs <;> simp [incr] at h
  | cons s rest ih =>
    intro cs cs' h
    cases cs with
    | nil => simp [incr] at h
    | cons c cs0 =>
      cases hincr : incr rest cs0 with
      | some cs2 =>
        simp [incr, hincr] at h
        rw [← h]
        exact List.Lex.cons (ih cs0 cs2 hincr)
      | none =>
        by_cases hcs : c = s
        · simp [incr, hincr, hcs] at h
        · simp [incr, hincr, hcs] at h
          rw [← h]
          exact List.Lex.rel (lt_add_one c)

theorem incr_some : ∀ (ss cs cs' : List Int),
    List.Forall₂ invRel ss cs → incr ss cs = some cs' →
    List.Forall₂ invRel ss cs' ∧ rank ss cs' = rank ss cs + 1 := by
  intro ss
  induction ss with
  | nil =>
    intro cs cs' h hi
    cases h
    simp [incr] at hi
  | cons s rest ih =>
    intro cs cs' hinv2 hsome
    cases hinv2 with
    | cons h1 h2 =>
      rename_i c cs0
      cases hincr : incr rest cs0 with
      | some cs2 =>
        simp [incr, hincr] at hsome
        obtain ⟨hinv3, hrank⟩ := ih cs0 cs2 h2 hincr
        rw [← hsome]
        refine ⟨List.Forall₂.cons h1 hinv3, ?_⟩
        show c.toNat * prodM1 rest + rank rest cs2 = c.toNat * prodM1 rest + rank rest cs0 + 1
        omega
      | none =>
        by_cases hcs : c = s
        · simp [incr, hincr, hcs] at hsome
        · simp [incr, hincr, hcs] at hsome
          have hc0 : cs0 = rest := incr_none_eq rest cs0 h2 hincr
          have hlen : cs0.length = rest.length := by rw [hc0]
          have hnn : ∀ x ∈ rest, 0 ≤ x := forall₂_fst_nonneg rest cs0 h2
          rw [← hsome]
          constructor
          · refine List.Forall₂.cons ⟨by omega, ?_⟩ ?_
            · have hc1 := h1.1
              have hc2 := h1.2
              omega
            · rw [hlen]
              exact forall₂_replicate rest hnn
          · show (c + 1).toNat * prodM1 rest + rank rest (List.replicate cs0.length 0)
                = c.toNat * prodM1 rest + rank rest cs0 + 1
            rw [hlen, rank_zeros rest rest.length rfl, hc0, rank_self rest hnn]
            have hp := prodM1_pos rest
            have hc1 : (c + 1).toNat = c.toNat + 1 := by
              have := h1.1
              omega
            rw [hc1]
            have he : (c.toNat + 1) * prodM1 rest = c.toNat * prodM1 rest + prodM1 rest := by
              ring
            omega

theorem runIter_done (sz cur : List Int) (f : Nat) :
    runIter ⟨sz, cur, true⟩ f = [] := by
  cases f with
  | zero => rfl
  | succ n => simp [runIter, PointIter.next]

theorem runIter_succ_false (ss cs : List Int) (n : Nat) :
    runIter ⟨ss, cs, false⟩ (n + 1) =
      cs :: (match incr ss cs with
        | some c2 => runIter ⟨ss, c2, false⟩ n
        | none => []) := by
  cases hincr : incr ss cs with
  | some c2 => simp [runIter, PointIter.next, hincr]
  | none => simp [runIter, PointIter.next, hincr, runIter_done]

theorem runIter_master :
    ∀ (fuel : Nat) (ss cs : List Int),
      List.Forall₂ invRel ss cs →
      prodM1 ss - rank ss cs ≤ fuel →
      runIter ⟨ss, cs, false⟩ fuel = runIter ⟨ss, cs, false⟩ (prodM1 ss - rank ss cs) ∧
      (runIter ⟨ss, cs, false⟩ fuel).length = prodM1 ss - rank ss cs ∧
      (∀ q ∈ runIter ⟨ss, cs, false⟩ fuel, List.Forall₂ invRel ss q) ∧
      (∀ q ∈ runIter ⟨ss, cs, false⟩ fuel, q = cs ∨ lexLt cs q) ∧
      (runIter ⟨ss, cs, false⟩ fuel).Pairwise lexLt := by
  intro fuel
  induction fuel with
  | zero =>
    intro ss cs hinv2 hfuel
    exfalso
    have := rank_lt_prod ss cs hinv2
    omega
  | succ n ih =>
    intro ss cs hinv2 hfuel
    cases hincr : incr ss cs with
    | none =>
      have hcs : cs = ss := incr_none_eq ss cs hinv2 hincr
      have hnn : ∀ x ∈ ss, 0 ≤ x := forall₂_fst_nonneg ss cs hinv2
      have hrank : rank ss cs = prodM1 ss - 1 := by
        rw [hcs]
        exact rank_self ss hnn
      have hp := prodM1_pos ss
      have hrem : prodM1 ss - rank ss cs = 1 := by omega
      have h1 : runIter ⟨ss, cs, false⟩ (n + 1) = [cs] := by
        rw [runIter_succ_false, hincr]
      have h2 : runIter ⟨ss, cs, false⟩ (prodM1 ss - rank ss cs) = [cs] := by
        rw [hrem, show (1 : Nat) = 0 + 1 from rfl, runIter_succ_false, hincr]
      refine ⟨by rw [h1, h2], by rw [h1, hrem]; rfl, ?_, ?_, ?_⟩
      · intro q hq
        rw [h1] at hq
        simp at hq
        subst hq
        exact hinv2
      · intro q hq
        rw [h1] at hq
        simp at hq
        subst hq
        exact Or.inl rfl
      · rw [h1]
        simp
    | some c2 =>
      obtain ⟨hinv3, hrank2⟩ := incr_some ss cs c2 hinv2 hincr
      have hlex := incr_lex ss cs c2 hincr
      have hlt2 := rank_lt_prod ss c2 hinv3
      have hrem : prodM1 ss - rank ss cs = (prodM1 ss - rank ss c2) + 1 := by omega
      have hfuel2 : prodM1 ss - rank ss c2 ≤ n := by omega
      obtain ⟨ihstab, ihlen, ihbounds, ihmin, ihpair⟩ := ih ss c2 hinv3 hfuel2
      have hstepn : runIter ⟨ss, cs, false⟩ (n + 1) = cs :: runIter ⟨ss, c2, false⟩ n := by
        rw [runIter_succ_false, hincr]
      have hsteprem : runIter ⟨ss, cs, false⟩ (prodM1 ss - rank ss cs)
          = cs :: runIter ⟨ss, c2, false⟩ (prodM1 ss - rank ss c2) := by
        rw [hrem, runIter_succ_false, hincr]
      refine ⟨?_, ?_, ?_, ?_, ?_⟩
      · rw [hstepn, hsteprem, ihstab]
      · rw [hstepn, List.length_cons, ihlen]
        omega
      · intro q hq
        rw [hstepn] at hq
        rcases List.mem_cons.mp hq with rfl | hq2
        · exact hinv2
        · exact ihbounds q hq2
      · intro q hq
        rw [hstepn] at hq
        rcases List.mem_cons.mp hq with rfl | hq2
        · exact Or.inl rfl
        · rcases ihmin q hq2 with rfl | hlex2
          · exact Or.inr hlex
          · exact Or.inr (lexLt_trans hlex hlex2)
      · rw [hstepn]
        refine List.Pairwise.cons ?_ ihpair
        intro q hq
        rcases ihmin q hq with rfl | hlex2
        · exact hlex
        · exact lexLt_trans hlex hlex2

theorem forall₂_szM1_zeros :
    ∀ (sz : List Int), (∀ s ∈ sz, 1 ≤ s) →
      List.Forall₂ invRel
        (List.zipWith (· - ·) sz (List.replicate sz.length 1))
        (List.replicate sz.length 0) := by
  intro sz
  induction sz with
  | nil => intro _; exact List.Forall₂.nil
  | cons a l ih =>
    intro h
    rw [List.length_cons, List.replicate_succ, List.replicate_succ, List.zipWith_cons_cons]
    refine List.Forall₂.cons ⟨le_refl 0, ?_⟩ (ih fun x hx => h x (List.mem_cons_of_mem _ hx))
    have := h a (List.mem_cons_self _ _)
    omega

theorem prodM1_szM1 :
    ∀ (sz : List Int), (∀ s ∈ sz, 1 ≤ s) →
      prodM1 (List.zipWith (· - ·) sz (List.replicate sz.length 1)) = prodSize sz := by
  intro sz
  induction sz with
  | nil => intro _; rfl
  | cons a l ih =>
    intro h
    rw [List.length_cons, List.replicate_succ, List.zipWith_cons_cons]
    rw [prodM1_cons, prodSize_cons, ih fun x hx => h x (List.mem_cons_of_mem _ hx)]
    have h1 : (a - 1).toNat + 1 = a.toNat := by
      have := h a (List.mem_cons_self _ _)
      omega
    rw [h1]

theorem in_bounds_of_forall₂ :
    ∀ (sz q : List Int),
      List.Forall₂ invRel (List.zipWith (· - ·) sz (List.replicate sz.length 1)) q →
      (q.zip sz).all (fun cs => decide (0 ≤ cs.1) && decide (cs.1 < cs.2)) = true := by
  intro sz
  induction sz with
  | nil =>
    intro q h
    cases h
    rfl
  | cons a l ih =>
    intro q h
    rw [List.length_cons, List.replicate_succ, List.zipWith_cons_cons] at h
    cases h with
    | cons h1 h2 =>
      rename_i c q'
      rw [List.zip_cons_cons, List.all_cons]
      have hc : 0 ≤ c ∧ c < a := by
        have := h1.1
        have := h1.2
        omega
      simp only [Bool.and_eq_true, decide_eq_true_eq]
      exact ⟨⟨hc.1, hc.2⟩, ih q' h2⟩

/-- C5 (amended): on every grid or view all of whose size components are
at least 1, points_iter terminates after yielding exactly the product of
the sizes: running it with any fuel at least that product gives the same
list as running it exactly that long, of length exactly the product, every
yielded point in bounds, with no repeats, strictly increasing in the
lexicographic order on components with the first component most
significant (row-major, last component fastest).  For a size with a zero
or negative component the iterator never terminates and yields
out-of-bounds points (see the counterexample), so the restriction to
positive extents is necessary. -/
theorem c5_enumeration (g : GridView T) (hpos : ∀ s ∈ g.size, 1 ≤ s)
    (fuel : Nat) (hfuel : prodSize g.size ≤ fuel) :
    runIter g.points_iter fuel = runIter g.points_iter (prodSize g.size) ∧
    (runIter g.points_iter fuel).length = prodSize g.size ∧
    (∀ q ∈ runIter g.points_iter fuel, g.in_bounds q = true) ∧
    (runIter g.points_iter fuel).Nodup ∧
    (runIter g.points_iter fuel).Pairwise lexLt := by
  have hK : g.points_iter =
      ⟨List.zipWith (· - ·) g.size (List.replicate g.size.length 1),
        List.replicate g.size.length 0, false⟩ := rfl
  have hinv0 := forall₂_szM1_zeros g.size hpos
  have hprod := prodM1_szM1 g.size hpos
  have hlen : (List.zipWith (· - ·) g.size (List.replicate g.size.length 1)).length
      = g.size.length := by
    rw [List.length_zipWith, List.length_replicate]
    exact min_self _
  have hrank0 : rank (List.zipWith (· - ·) g.size (List.replicate g.size.length 1))
      (List.replicate g.size.length 0) = 0 := rank_zeros _ _ hlen
  have hrem : prodM1 (List.zipWith (· - ·) g.size (List.replicate g.size.length 1))
      - rank (List.zipWith (· - ·) g.size (List.replicate g.size.length 1))
          (List.replicate g.size.length 0)
      = prodSize g.size := by
    rw [hrank0, hprod]
    omega
  obtain ⟨mstab, mlen, mbounds, mmin, mpair⟩ :=
    runIter_master fuel _ _ hinv0 (by rw [hrem]; exact hfuel)
  rw [hK]
  refine ⟨?_, ?_, ?_, ?_, ?_⟩
  · rw [mstab, hrem]
  · rw [mlen, hrem]
  · intro q hq
    have hf := mbounds q hq
    show GridView.in_bounds g q = true
    unfold GridView.in_bounds
    exact in_bounds_of_forall₂ g.size q hf
  · refine List.Pairwise.imp (fun {a b} h => ?_) mpair
    intro heq
    exact lexLt_irrefl b (heq ▸ h)
  · exact mpair

theorem c5_enumeration_witness :
    runIter (from_data2 ([0, 0, 0, 0] : List Nat) 2).points_iter 4
        = runIter (from_data2 ([0, 0, 0, 0] : List Nat) 2).points_iter
            (prodSize (from_data2 ([0, 0, 0, 0] : List Nat) 2).size) ∧
    (runIter (from_data2 ([0, 0, 0, 0] : List Nat) 2).points_iter 4).length
        = prodSize (from_data2 ([0, 0, 0, 0] : List Nat) 2).size ∧
    (∀ q ∈ runIter (from_data2 ([0, 0, 0, 0] : List Nat) 2).points_iter 4,
      (from_data2 ([0, 0, 0, 0] : List Nat) 2).in_bounds q = true) ∧
    (runIter (from_data2 ([0, 0, 0, 0] : List Nat) 2).points_iter 4).Nodup ∧
    (runIter (from_data2 ([0, 0, 0, 0] : List Nat) 2).points_iter 4).Pairwise lexLt :=
  c5_enumeration (from_data2 ([0, 0, 0, 0] : List Nat) 2) (by decide) 4 (by decide)
